import Mathlib

/-!
Verification development for the Polymarket smart-money Telegram bot
(`src/services/polymarket.py`, `src/services/nansen.py`, `src/utils/fmt.py`,
`src/app.py`).  The Python modules are shallowly embedded: JSON dictionaries
become association lists over a JSON-like value type, HTTP traffic becomes an
oracle argument, and each handler becomes a pure function that additionally
reports how many fetch / classification calls it issued.
-/

namespace PolymarketBot

/-- A JSON-like value, as delivered by the external HTTP services.  Objects are
association lists (Python dicts; keys unique in practice, lookup takes the
first binding). -/
inductive JVal where
  | null : JVal
  | str (s : String) : JVal
  | num (n : Int) : JVal
  | bool (b : Bool) : JVal
  | arr (items : List JVal) : JVal
  | obj (fields : List (String × JVal)) : JVal

/-- Python truthiness of a JSON-like value (`if x:`): `None`, `""`, `0`,
`False`, `[]` and `\x7b\x7d` are falsy, everything else truthy. -/
def jvalTruthy : JVal → Bool
  | .null => false
  | .str s => s ≠ ""
  | .num n => n ≠ 0
  | .bool b => b
  | .arr [] => false
  | .arr (_ :: _) => true
  | .obj [] => false
  | .obj (_ :: _) => true

/-- Whether a JSON-like value is an object (`isinstance(x, dict)`). -/
def isObjVal : JVal → Bool
  | .obj _ => true
  | _ => false

/-- Dictionary lookup (`k in d` / `d.get(k)` combined): the value stored under
`k`, or `none` when the key is absent. -/
def getField : List (String × JVal) → String → Option JVal
  | [], _ => none
  | (k', v) :: rest, k => if k' = k then some v else getField rest k

/-- Lookup that treats an explicit JSON `null` like an absent key, matching
the Python pattern `k in d and d[k] is not None` (and `d.get(k)` followed by
an `is None` test). -/
def getNonNull (d : List (String × JVal)) (k : String) : Option JVal :=
  match getField d k with
  | some JVal.null => none
  | some v => some v
  | none => none

namespace Polymarket

/-- `CANDIDATE_COLLECTIONS` from `src/services/polymarket.py`. -/
def CANDIDATE_COLLECTIONS : List String :=
  ["fills", "marketFills", "trades", "tradeEvents", "swaps", "orders", "marketTrades"]

/-- `CANDIDATE_TIME_FIELDS` from `src/services/polymarket.py`. -/
def CANDIDATE_TIME_FIELDS : List String :=
  ["matchTime", "timestamp", "createdAt", "blockTimestamp", "filledAt"]

/-- `CANDIDATE_MAKER_FIELDS`. -/
def CANDIDATE_MAKER_FIELDS : List String :=
  ["makerAddress", "maker", "trader", "from", "user"]

/-- `CANDIDATE_SIZE_FIELDS`. -/
def CANDIDATE_SIZE_FIELDS : List String := ["size", "amount", "qty", "quantity"]

/-- `CANDIDATE_PRICE_FIELDS`. -/
def CANDIDATE_PRICE_FIELDS : List String := ["price", "avgPrice", "fillPrice"]

/-- `CANDIDATE_OUTCOME_FIELDS`. -/
def CANDIDATE_OUTCOME_FIELDS : List String := ["outcome", "side", "position"]

/-- `CANDIDATE_MARKET_ID_FIELDS`. -/
def CANDIDATE_MARKET_ID_FIELDS : List String := ["id", "marketId"]

/-- `CANDIDATE_MARKET_QUESTION_FIELDS`. -/
def CANDIDATE_MARKET_QUESTION_FIELDS : List String := ["question", "title", "name"]

/-- A raw trade item as returned by the subgraph: a JSON object
(association list). -/
def RawItem : Type := List (String × JVal)

/-- `_first_existing(d, keys)`: the value of the first key in `keys` that is
present in `d` with a non-`None` value, else `None`. -/
def firstExisting (d : RawItem) : List String → Option JVal
  | [] => none
  | k :: ks =>
    match getNonNull d k with
    | some v => some v
    | none => firstExisting d ks

/-- The normalized `market` sub-record `\x7b"id": …, "question": …\x7d`. -/
structure CanonMarket where
  id : Option JVal
  question : Option JVal

/-- The canonical trade record produced by `_normalize_item` (field value
`none` stands for JSON `null`). -/
structure CanonItem where
  id : Option JVal
  makerAddress : Option JVal
  outcome : Option JVal
  size : Option JVal
  price : Option JVal
  matchTime : Option JVal
  market : CanonMarket

/-- `_normalize_item(it, time_field)`.  Each logical field takes the first
present, non-null value among its candidate names; `matchTime` first tries
the time field that was used for the query and falls back to the candidate
time-field list; a missing or non-dict `market` (note the Python
`it.get("market") or \x7b\x7d` which also maps falsy values to an empty dict)
yields an empty market sub-record. -/
def normalizeItem (timeField : String) (it : RawItem) : CanonItem :=
  { id := getNonNull it "id"
    makerAddress := firstExisting it CANDIDATE_MAKER_FIELDS
    outcome := firstExisting it CANDIDATE_OUTCOME_FIELDS
    size := firstExisting it CANDIDATE_SIZE_FIELDS
    price := firstExisting it CANDIDATE_PRICE_FIELDS
    matchTime :=
      match getNonNull it timeField with
      | some v => some v
      | none => firstExisting it CANDIDATE_TIME_FIELDS
    market :=
      match getField it "market" with
      | some (JVal.obj fs) =>
        { id := firstExisting fs CANDIDATE_MARKET_ID_FIELDS
          question := firstExisting fs CANDIDATE_MARKET_QUESTION_FIELDS }
      | _ => { id := none, question := none } }

/-- `v` is the value resolved by scanning `keys` left to right and taking the
first key present in `d` with a non-null value. -/
def firstCand (d : RawItem) (keys : List String) (v : JVal) : Prop :=
  ∃ ks1 k ks2, keys = ks1 ++ k :: ks2 ∧
    (∀ k' ∈ ks1, getNonNull d k' = none) ∧ getNonNull d k = some v

/-- `fld` is exactly the resolution of the candidate list `keys` against the
record `d`: it holds the first present non-null candidate value and is null
precisely when every candidate is absent or null. -/
def resolves (fld : Option JVal) (d : RawItem) (keys : List String) : Prop :=
  (∀ v, fld = some v ↔ firstCand d keys v) ∧
  (fld = none ↔ ∀ k ∈ keys, getNonNull d k = none)

/-- Outcome of one `(collection, timeField)` query attempt, as seen by
`query_trades`:
* `fail msg` — `_post_graphql` raised `PolymarketError` (transport failure,
  non-2xx status, invalid JSON body, or a GraphQL `errors` payload); `msg` is
  `str(e)`;
* `nonList desc` — the request succeeded but `data["data"][collection]` is
  not a list; `desc` is the textual rendering of the whole response used in
  the diagnostic;
* `list items` — `data["data"][collection]` is a list (possibly empty). -/
inductive Resp where
  | fail (msg : String) : Resp
  | nonList (desc : String) : Resp
  | list (items : List RawItem) : Resp

/-- Whether an attempt outcome is a success for `query_trades` (a nonempty
list). -/
def isSuccess : Resp → Bool
  | .list (_ :: _) => true
  | _ => false

/-- The diagnostic string `query_trades` records in `last_error` for an
unsuccessful attempt at `(c, t)` (for `.list` this is only used when the
list is empty). -/
def diag (c t : String) : Resp → String
  | .fail msg => msg
  | .nonList desc => "Unexpected response for " ++ c ++ " using " ++ t ++ ": " ++ desc
  | .list _ => "Combination valid but empty: " ++ c ++ "/" ++ t

/-- Leading text of the terminal `PolymarketError` message. -/
def exhaustHead : String :=
  "Unable to query trades from the subgraph. Last attempt error: "

/-- Trailing text of the terminal `PolymarketError` message. -/
def exhaustTail : String :=
  ". Coba set env POLY_SUBGRAPH_URL ke endpoint activity subgraph yang benar untuk akun/proyekmu."

/-- The terminal `PolymarketError` message, rendering `last_error` the way
Python string interpolation renders an `Optional[str]`. -/
def exhaustMsg : Option String → String
  | none => exhaustHead ++ "None" ++ exhaustTail
  | some d => exhaustHead ++ d ++ exhaustTail

/-- The candidate `(collection, timeField)` pairs in the order the nested
loops of `query_trades` try them: collections outer, time fields inner. -/
def allPairs : List (String × String) :=
  CANDIDATE_COLLECTIONS.flatMap fun c => CANDIDATE_TIME_FIELDS.map fun t => (c, t)

/-- The loop body of `query_trades` over a list of remaining candidate pairs,
threading `last_error`.  `net c t` is the outcome of issuing the query built
for `(c, t)` (the `since`/`limit` variables and endpoint URL are fixed for
the whole run and absorbed into `net`).  Returns the list of pairs actually
queried together with the result: the normalized items of the first pair
yielding a nonempty list, or the terminal `PolymarketError` message. -/
def tryPairs (net : String → String → Resp) :
    List (String × String) → Option String →
    List (String × String) × Except String (List CanonItem)
  | [], lastErr => ([], .error (exhaustMsg lastErr))
  | (c, t) :: rest, _lastErr =>
    match net c t with
    | .fail msg =>
      let r := tryPairs net rest (some (diag c t (.fail msg)))
      ((c, t) :: r.1, r.2)
    | .nonList desc =>
      let r := tryPairs net rest (some (diag c t (.nonList desc)))
      ((c, t) :: r.1, r.2)
    | .list [] =>
      let r := tryPairs net rest (some (diag c t (.list [])))
      ((c, t) :: r.1, r.2)
    | .list (it :: its) => ([(c, t)], .ok ((it :: its).map (normalizeItem t)))

/-- `query_trades` (`fetch_recent_trades` in the spec): try every candidate
pair in priority order starting with no recorded error. -/
def queryTrades (net : String → String → Resp) :
    List (String × String) × Except String (List CanonItem) :=
  tryPairs net allPairs none

end Polymarket

namespace Nansen

/-- `SMART_LABELS` from `src/services/nansen.py` (a Python `set`; only
membership is used, so a list is an equivalent embedding). -/
def SMART_LABELS : List String :=
  ["Smart Trader", "30D Smart Trader", "90D Smart Trader", "180D Smart Trader", "Fund"]

/-- `[item.get("label") for item in labels if isinstance(item, dict)]`:
from each dict item take the value stored under `"label"` (JSON `null` when
the key is absent); non-dict items are skipped. -/
def labelNames (items : List JVal) : List JVal :=
  items.filterMap fun it =>
    match it with
    | .obj fs => some ((getField fs "label").getD JVal.null)
    | _ => none

/-- Membership of one extracted label value in `SMART_LABELS` (a non-string
value is never a member of a set of strings in Python). -/
def isSmartLabel : JVal → Bool
  | .str s => s ∈ SMART_LABELS
  | _ => false

/-- `smart = any(label in SMART_LABELS for label in label_names)`. -/
def smartFlag (items : List JVal) : Bool :=
  (labelNames items).any isSmartLabel

/-- `[label for label in label_names if label]`: the truthy (non-null,
non-empty) extracted labels, all of them, not only the smart ones. -/
def keptLabels (items : List JVal) : List JVal :=
  (labelNames items).filter jvalTruthy

/-- The body of the HTTP reply from the Nansen Profiler endpoint: either raw
bytes that do not parse as JSON, or a parsed JSON value. -/
inductive NBody where
  | rawInvalid (raw : String) : NBody
  | parsed (v : JVal) : NBody

/-- The outcome of the HTTP POST issued by `is_smart_money`. -/
inductive NResp where
  | transportError : NResp
  | reply (status : Nat) (body : NBody) : NResp

/-- How one (uncached) run of the body of `is_smart_money` terminates.
`uncaughtValueError` models the `requests` JSON decode error (a `ValueError`)
escaping `response.json()`; `uncaughtAttributeError` models `.get` being
called on a non-dict value.  Neither of those two is a `NansenError`. -/
inductive NOutcome where
  | ok (smart : Bool) (labels : List JVal) : NOutcome
  | nansenError (msg : String) : NOutcome
  | uncaughtValueError (raw : String) : NOutcome
  | uncaughtAttributeError : NOutcome

/-- The body of `is_smart_money` (after the `lru_cache` layer) run against a
given HTTP outcome: wrap transport failures, non-200 statuses and a non-list
`data.items` into `NansenError`; an unparseable 200 body raises the JSON
decode `ValueError` unhandled, and a non-dict `data` (or non-dict top level)
raises `AttributeError` unhandled. -/
def isSmartMoneyNet (resp : NResp) : NOutcome :=
  match resp with
  | .transportError => .nansenError "Failed to call Nansen Profiler API"
  | .reply status body =>
    if status ≠ 200 then .nansenError ("Nansen returned status " ++ toString status)
    else
      match body with
      | .rawInvalid raw => .uncaughtValueError raw
      | .parsed v =>
        match v with
        | .obj fs =>
          match (getField fs "data").getD (JVal.obj []) with
          | .obj ds =>
            match (getField ds "items").getD (JVal.arr []) with
            | .arr items => .ok (smartFlag items) (keptLabels items)
            | _ => .nansenError "Unexpected Nansen response format"
          | _ => .uncaughtAttributeError
        | _ => .uncaughtAttributeError

end Nansen

namespace Lru

variable {κ : Type} {α : Type} [DecidableEq κ]

/-- Lookup in an LRU cache held as an association list in recency order
(most recently used first). -/
def lruLookup : List (κ × α) → κ → Option α
  | [], _ => none
  | (k', v) :: rest, k => if k' = k then some v else lruLookup rest k

/-- Remove the (unique) entry for a key, for the move-to-front on a hit. -/
def eraseKey : List (κ × α) → κ → List (κ × α)
  | [], _ => []
  | (k', v) :: rest, k => if k' = k then rest else (k', v) :: eraseKey rest k

/-- One call through a `functools.lru_cache(maxsize)`-wrapped function with
underlying (pure) function `net`: on a hit, return the cached value and move
the entry to the front; on a miss, call `net`, insert the entry at the front
and drop the least recently used entry beyond `maxsize`.  The `Bool` reports
whether the underlying function was invoked (a network call, here). -/
def lruCall (maxsize : Nat) (net : κ → α) (cache : List (κ × α)) (k : κ) :
    α × List (κ × α) × Bool :=
  match lruLookup cache k with
  | some v => (v, (k, v) :: eraseKey cache k, false)
  | none => (net k, ((k, net k) :: cache).take maxsize, true)

/-- Run a sequence of calls through the cache, returning for each call the
value produced and whether the underlying function was invoked, together
with the final cache. -/
def lruRun (maxsize : Nat) (net : κ → α) :
    List κ → List (κ × α) → List (α × Bool) × List (κ × α)
  | [], cache => ([], cache)
  | k :: ks, cache =>
    let s := lruCall maxsize net cache k
    let r := lruRun maxsize net ks s.2.1
    ((s.1, s.2.2) :: r.1, r.2)

end Lru

namespace Nansen

/-- The memoization key of `is_smart_money`: `(address, chain)`. -/
abbrev NKey : Type := String × String

/-- A sequence of `is_smart_money` calls as mediated by its
`@lru_cache(maxsize=512)` decorator, starting from the empty cache of a
fresh process.  `net` is the uncached classification (one network call per
invocation). -/
def classifyRuns (net : NKey → Bool × List JVal) (calls : List NKey) :
    List ((Bool × List JVal) × Bool) × List (NKey × (Bool × List JVal)) :=
  Lru.lruRun 512 net calls []

end Nansen

namespace App

/-- Result of one `is_smart_money(maker)` call as observed by `app.py`:
either the `(smart, labels)` pair, or some raised exception (caught by the
surrounding `except Exception`). -/
inductive ClassifyRes where
  | ok (smart : Bool) (labels : List JVal) : ClassifyRes
  | err (msg : String) : ClassifyRes

/-- An `EnrichedTrade`: the normalized trade dict with `labels` attached
(`\x7b**trade, "labels": labels\x7d`). -/
def Enriched : Type := Polymarket.CanonItem × List JVal

/-- Python truthiness of a normalized `makerAddress` field (`if not maker`
where absent/None is falsy). -/
def makerTruthy (t : Polymarket.CanonItem) : Bool :=
  match t.makerAddress with
  | none => false
  | some v => jvalTruthy v

/-- The shared classification loop of `smartmoney_handler` and
`filter_callback`: skip trades with a falsy maker, drop trades whose
classification raises, keep (in fetch order) the trades classified smart,
each with its labels attached. -/
def collectSmart (classify : JVal → ClassifyRes) :
    List Polymarket.CanonItem → List Enriched
  | [] => []
  | t :: rest =>
    match t.makerAddress with
    | none => collectSmart classify rest
    | some mv =>
      if jvalTruthy mv then
        match classify mv with
        | .err _ => collectSmart classify rest
        | .ok smart labels =>
          if smart then (t, labels) :: collectSmart classify rest
          else collectSmart classify rest
      else collectSmart classify rest

/-- Number of `is_smart_money` invocations the loop performs: one per trade
with a truthy maker. -/
def classifyInvocations (trades : List Polymarket.CanonItem) : Nat :=
  (trades.filter makerTruthy).length

/-- Observable outcome of one handler run: whether it bailed out with the
apology message (fetch failure), the trade list rendered, the outcome filter
used for rendering, how many fetch and classification calls were issued, and
the session's `smart_trades` slot afterwards. -/
structure StepResult where
  failed : Bool
  shown : List Enriched
  filt : Option String
  fetchCalls : Nat
  classifyCalls : Nat
  newCache : Option (List Enriched)

/-- `smartmoney_handler` (the spec's `initial_load`): fetch, classify, store
the smart set, render with no filter. `cached` is the session's
`smart_trades` slot before the call (left untouched when the fetch fails).
`fetch` is the outcome of the one `query_trades()` call, `classify` the
per-maker classification oracle. -/
def smartmoneyHandler (cached : Option (List Enriched))
    (fetch : Except String (List Polymarket.CanonItem))
    (classify : JVal → ClassifyRes) : StepResult :=
  match fetch with
  | .error _ => ⟨true, [], none, 1, 0, cached⟩
  | .ok trades =>
    ⟨false, collectSmart classify trades, none, 1, classifyInvocations trades,
      some (collectSmart classify trades)⟩

/-- `outcome_filter = action if action in \x7b"YES", "NO"\x7d else None`. -/
def filterOf (action : String) : Option String :=
  if action = "YES" ∨ action = "NO" then some action else none

/-- `filter_callback` (the spec's `apply_filter`/`refresh`), given the
`action` extracted from the callback data: on `REFRESH` re-run the pipeline;
otherwise reuse the cached set when the session holds one (issuing no fetch
and no classification call) and record the requested outcome as the filter,
or run the pipeline first when there is no cached set. -/
def filterCallback (action : String) (cached : Option (List Enriched))
    (fetch : Except String (List Polymarket.CanonItem))
    (classify : JVal → ClassifyRes) : StepResult :=
  if action = "REFRESH" then
    match fetch with
    | .error _ => ⟨true, [], none, 1, 0, cached⟩
    | .ok trades =>
      ⟨false, collectSmart classify trades, none, 1, classifyInvocations trades,
        some (collectSmart classify trades)⟩
  else
    match cached with
    | some sts => ⟨false, sts, filterOf action, 0, 0, some sts⟩
    | none =>
      match fetch with
      | .error _ => ⟨true, [], none, 1, 0, none⟩
      | .ok trades =>
        ⟨false, collectSmart classify trades, filterOf action, 1,
          classifyInvocations trades, some (collectSmart classify trades)⟩

end App

namespace Fmt

/-- The slice of an enriched trade dict that the selection predicate of
`build_message` reads.  Per the data model, `outcome` is a display string
when present (the string rendering of the other fields is presentation
detail and not modelled). -/
structure Row where
  outcome : Option String
deriving DecidableEq

/-- The selection predicate inside the loop of `build_message`:
`outcome = (trade.get("outcome") or "").upper()` then
`if filter_outcome and outcome != filter_outcome: continue`.  A row is kept
when the filter is falsy (`None` or `""`) or the upper-cased outcome equals
the filter token exactly. -/
def rowKept (filterOutcome : Option String) (t : Row) : Bool :=
  match filterOutcome with
  | none => true
  | some f => if f = "" then true else (t.outcome.getD "").toUpper = f

/-- The row-accumulation loop of `build_message`, carrying the running
`count` of emitted rows and stopping once `count >= max_rows` right after a
row is emitted. -/
def buildRowsGo (filterOutcome : Option String) (maxRows : Nat) :
    List Row → Nat → List Row
  | [], _ => []
  | t :: rest, count =>
    if rowKept filterOutcome t then
      if count + 1 ≥ maxRows then [t]
      else t :: buildRowsGo filterOutcome maxRows rest (count + 1)
    else buildRowsGo filterOutcome maxRows rest count

/-- The default of the `max_rows` parameter of `build_message` (the value
used by both call sites in `app.py`). -/
def MAX_ROWS : Nat := 12

/-- The rows `build_message(trades, filter_outcome, max_rows)` renders, in
order (one bullet line per row; the surrounding header/empty-state text is
presentation only). -/
def buildRows (trades : List Row) (filterOutcome : Option String)
    (maxRows : Nat) : List Row :=
  buildRowsGo filterOutcome maxRows trades 0

end Fmt

/-! Concrete fixtures used by witness and counterexample theorems. -/

/-- A raw item whose maker resolves through the `trader` alternate name. -/
def c1item : Polymarket.RawItem :=
  [("trader", JVal.str "0xT"), ("timestamp", JVal.num 1000)]

/-- A network oracle whose first candidate pair fails with a transport error
and whose every other pair returns one item. -/
def c1net : String → String → Polymarket.Resp := fun c t =>
  if c = "fills" ∧ t = "matchTime" then Polymarket.Resp.fail "transport down"
  else Polymarket.Resp.list [c1item]

/-- A raw item carrying none of the recognized maker names and a non-dict
market value. -/
def c3item : Polymarket.RawItem :=
  [("foo", JVal.num 1), ("side", JVal.str "YES"), ("market", JVal.str "oops")]

/-- A normalized one-trade batch whose only maker is `0xA`. -/
def c7trade : Polymarket.CanonItem :=
  { id := some (JVal.str "1")
    makerAddress := some (JVal.str "0xA")
    outcome := some (JVal.str "YES")
    size := some (JVal.num 10)
    price := some (JVal.num 1)
    matchTime := some (JVal.num 1000)
    market := { id := some (JVal.str "m1"), question := some (JVal.str "Q1") } }

/-- The classification oracle used by the cache theorems. -/
def c5net : Nansen.NKey → Bool × List JVal := fun _ => (false, [])

/-- An address of length 512 (distinct from every `c5mids` address),
classified on the polygon chain. -/
def c5key : Nansen.NKey := (String.mk (List.replicate 512 'a'), "polygon")

/-- 512 pairwise-distinct addresses (lengths 0 through 511), all on the
polygon chain. -/
def c5mids : List Nansen.NKey :=
  (List.range 512).map fun i => (String.mk (List.replicate i 'a'), "polygon")

/-- Thirteen cached rows whose outcome is `YES`. -/
def c10rows : List Fmt.Row := List.replicate 13 { outcome := some "YES" }

/-! ## Theorems -/

/-- The row loop of `build_message` emits the first `maxRows - count` kept
rows: it counts a row right after emitting it and breaks once the count
reaches `max_rows`. -/
theorem buildRowsGo_eq_take (filt : Option String) (maxRows : Nat) :
    ∀ (l : List Fmt.Row) (count : Nat), count < maxRows →
      Fmt.buildRowsGo filt maxRows l count =
        (l.filter (Fmt.rowKept filt)).take (maxRows - count) := by
  intro l
  induction l with
  | nil => intro count _; simp [Fmt.buildRowsGo]
  | cons t rest ih =>
    intro count hcount
    by_cases hk : Fmt.rowKept filt t
    · by_cases hstop : count + 1 ≥ maxRows
      · have hm : maxRows - count = 1 := by omega
        simp [Fmt.buildRowsGo, hk, hstop, List.filter_cons, hm]
      · have hm : maxRows - count = (maxRows - (count + 1)) + 1 := by omega
        have := ih (count + 1) (by omega)
        simp [Fmt.buildRowsGo, hk, hstop, List.filter_cons, hm, this]
    · simp only [Fmt.buildRowsGo, Bool.not_eq_true] at hk ⊢
      rw [hk, List.filter_cons_of_neg (by simp [hk])]
      · exact ih count hcount

/-- C10: for every trade list and filter, `build_message` renders at most
`max_rows` (default 12) matching rows — exactly the first `max_rows` entries
of the matching sublist in cached order — and when more than `max_rows`
cached rows match, the rendered output silently omits the rest. -/
theorem claim_C10 (trades : List Fmt.Row) (filt : Option String) (maxRows : Nat)
    (h : 1 ≤ maxRows) :
    Fmt.buildRows trades filt maxRows =
      (trades.filter (Fmt.rowKept filt)).take maxRows ∧
    (Fmt.buildRows trades filt maxRows).length ≤ maxRows ∧
    (maxRows < (trades.filter (Fmt.rowKept filt)).length →
      (Fmt.buildRows trades filt maxRows).length <
        (trades.filter (Fmt.rowKept filt)).length) := by
  have heq : Fmt.buildRows trades filt maxRows =
      (trades.filter (Fmt.rowKept filt)).take maxRows := by
    have := buildRowsGo_eq_take filt maxRows trades 0 (by omega)
    simpa [Fmt.buildRows] using this
  refine ⟨heq, ?_, ?_⟩
  · rw [heq]; exact List.length_take_le _ _
  · intro hmore
    rw [heq, List.length_take]
    omega

/-- Closed instance of `claim_C10` at the default `max_rows = 12` and a
13-row all-matching cache. -/
theorem claim_C10_witness :
    Fmt.buildRows c10rows none 12 =
      (c10rows.filter (Fmt.rowKept none)).take 12 ∧
    (Fmt.buildRows c10rows none 12).length ≤ 12 ∧
    (12 < (c10rows.filter (Fmt.rowKept none)).length →
      (Fmt.buildRows c10rows none 12).length <
        (c10rows.filter (Fmt.rowKept none)).length) :=
  claim_C10 c10rows none 12 (by omega)

/-- C9: the selection predicate of the rendered view keeps a record exactly
when its stored outcome, case-folded to uppercase, equals the (nonempty)
active filter token, and keeps every record when no filter is active.  The
projection itself is the pure function `Fmt.buildRows` over the cached set
(cf. `claim_C10`: it is `filter` composed with `take`). -/
theorem claim_C9 (t : Fmt.Row) (f : String) (hf : f ≠ "") :
    (Fmt.rowKept (some f) t = true ↔ (t.outcome.getD "").toUpper = f) ∧
    Fmt.rowKept none t = true := by
  constructor
  · simp [Fmt.rowKept, hf]
  · rfl

/-- Closed instance of `claim_C9`: a stored lowercase `yes` outcome matches
the `YES` filter token, and rows pass unconditionally with no filter. -/
theorem claim_C9_witness :
    (Fmt.rowKept (some "YES") { outcome := some "yes" } = true ↔
      ((some "yes" : Option String).getD "").toUpper = "YES") ∧
    Fmt.rowKept none { outcome := some "yes" } = true :=
  claim_C9 { outcome := some "yes" } "YES" (by decide)

/-- C8: for a session holding a cached result set, `filter_callback` on a
non-`REFRESH` action reuses the cached set unchanged and issues no fetch and
no classification call, recording the requested outcome as the active filter
when it is `YES` or `NO` and clearing it otherwise; with no cached set it
runs the same fetch-classify-store pipeline as `smartmoney_handler`
(`initial_load`) and only then records the filter. -/
theorem claim_C8 (action : String) (fetch : Except String (List Polymarket.CanonItem))
    (classify : JVal → App.ClassifyRes) (sts : List App.Enriched)
    (hact : action ≠ "REFRESH") :
    App.filterCallback action (some sts) fetch classify =
      ⟨false, sts, App.filterOf action, 0, 0, some sts⟩ ∧
    ((action = "YES" ∨ action = "NO") → App.filterOf action = some action) ∧
    (¬(action = "YES" ∨ action = "NO") → App.filterOf action = none) ∧
    ((App.filterCallback action none fetch classify).failed =
        (App.smartmoneyHandler none fetch classify).failed ∧
      (App.filterCallback action none fetch classify).shown =
        (App.smartmoneyHandler none fetch classify).shown ∧
      (App.filterCallback action none fetch classify).fetchCalls =
        (App.smartmoneyHandler none fetch classify).fetchCalls ∧
      (App.filterCallback action none fetch classify).classifyCalls =
        (App.smartmoneyHandler none fetch classify).classifyCalls ∧
      (App.filterCallback action none fetch classify).newCache =
        (App.smartmoneyHandler none fetch classify).newCache) ∧
    (∀ trades, fetch = .ok trades →
      (App.filterCallback action none fetch classify).filt = App.filterOf action) := by
  refine ⟨?_, ?_, ?_, ?_, ?_⟩
  · simp [App.filterCallback, hact]
  · intro hrec; simp [App.filterOf, hrec]
  · intro hrec; simp [App.filterOf, hrec]
  · cases fetch <;> simp [App.filterCallback, App.smartmoneyHandler, hact]
  · intro trades htr; subst htr; simp [App.filterCallback, App.smartmoneyHandler, hact]

/-- Closed instance of `claim_C8` at action `YES`, a cached singleton result
set, and oracles that would fail if they were consulted. -/
theorem claim_C8_witness :
    App.filterCallback "YES" (some [(c7trade, [])]) (.ok []) (fun _ => App.ClassifyRes.err "down") =
      ⟨false, [(c7trade, [])], App.filterOf "YES", 0, 0, some [(c7trade, [])]⟩ ∧
    (("YES" = "YES" ∨ "YES" = "NO") → App.filterOf "YES" = some "YES") ∧
    (¬("YES" = "YES" ∨ "YES" = "NO") → App.filterOf "YES" = none) ∧
    ((App.filterCallback "YES" none (.ok []) (fun _ => App.ClassifyRes.err "down")).failed =
        (App.smartmoneyHandler none (.ok []) (fun _ => App.ClassifyRes.err "down")).failed ∧
      (App.filterCallback "YES" none (.ok []) (fun _ => App.ClassifyRes.err "down")).shown =
        (App.smartmoneyHandler none (.ok []) (fun _ => App.ClassifyRes.err "down")).shown ∧
      (App.filterCallback "YES" none (.ok []) (fun _ => App.ClassifyRes.err "down")).fetchCalls =
        (App.smartmoneyHandler none (.ok []) (fun _ => App.ClassifyRes.err "down")).fetchCalls ∧
      (App.filterCallback "YES" none (.ok []) (fun _ => App.ClassifyRes.err "down")).classifyCalls =
        (App.smartmoneyHandler none (.ok []) (fun _ => App.ClassifyRes.err "down")).classifyCalls ∧
      (App.filterCallback "YES" none (.ok []) (fun _ => App.ClassifyRes.err "down")).newCache =
        (App.smartmoneyHandler none (.ok []) (fun _ => App.ClassifyRes.err "down")).newCache) ∧
    (∀ trades, (.ok [] : Except String (List Polymarket.CanonItem)) = .ok trades →
      (App.filterCallback "YES" none (.ok []) (fun _ => App.ClassifyRes.err "down")).filt =
        App.filterOf "YES") :=
  claim_C8 "YES" (.ok []) (fun _ => App.ClassifyRes.err "down") [(c7trade, [])] (by decide)

/-- C7: during `initial_load`/`refresh`, a classification failure for one
maker is non-fatal — the trade is dropped from the smart set and the rest of
the batch is still processed — and in particular `smartmoney_handler` on a
one-trade fetch result whose classifier always raises succeeds with an empty
smart-trade set instead of propagating the error. -/
theorem claim_C7 (classify : JVal → App.ClassifyRes) :
    (∀ (t : Polymarket.CanonItem) rest mv e, t.makerAddress = some mv →
      classify mv = .err e →
      App.collectSmart classify (t :: rest) = App.collectSmart classify rest) ∧
    (∀ (t : Polymarket.CanonItem) cached,
      (∀ a, ∃ msg, classify a = App.ClassifyRes.err msg) →
      App.smartmoneyHandler cached (.ok [t]) classify =
        ⟨false, [], none, 1, App.classifyInvocations [t], some []⟩) := by
  have hdrop : ∀ (t : Polymarket.CanonItem) rest mv e, t.makerAddress = some mv →
      classify mv = .err e →
      App.collectSmart classify (t :: rest) = App.collectSmart classify rest := by
    intro t rest mv e hmk hcl
    by_cases htr : jvalTruthy mv
    · simp [App.collectSmart, hmk, htr, hcl]
    · simp [App.collectSmart, hmk, htr]
  refine ⟨hdrop, ?_⟩
  intro t cached hfail
  have hempty : App.collectSmart classify [t] = [] := by
    match hmk : t.makerAddress with
    | none => simp [App.collectSmart, hmk]
    | some mv =>
      obtain ⟨msg, hmsg⟩ := hfail mv
      by_cases htr : jvalTruthy mv
      · simp [App.collectSmart, hmk, htr, hmsg]
      · simp [App.collectSmart, hmk, htr]
  simp [App.smartmoneyHandler, hempty]

/-- Closed instance of `claim_C7`: the classifier raising for the only maker
`0xA` of a one-trade batch still lets `smartmoney_handler` succeed, storing
and showing an empty smart set. -/
theorem claim_C7_witness :
    App.smartmoneyHandler none (.ok [c7trade]) (fun _ => App.ClassifyRes.err "boom") =
      ⟨false, [], none, 1, App.classifyInvocations [c7trade], some []⟩ :=
  (claim_C7 (fun _ => App.ClassifyRes.err "boom")).2 c7trade none (fun _ => ⟨"boom", rfl⟩)

/-- C4: a successful classification computes `isSmart` as true exactly when
some extracted label is, as a string, in the fixed case-sensitive smart-label
set, and returns all truthy (non-empty) extracted labels — not only the
smart-matching ones. -/
theorem claim_C4 (items : List JVal) :
    Nansen.isSmartMoneyNet
        (.reply 200 (.parsed (.obj [("data", .obj [("items", .arr items)])]))) =
      .ok (Nansen.smartFlag items) (Nansen.keptLabels items) ∧
    (Nansen.smartFlag items = true ↔
      ∃ s, JVal.str s ∈ Nansen.labelNames items ∧ s ∈ Nansen.SMART_LABELS) ∧
    Nansen.keptLabels items = (Nansen.labelNames items).filter jvalTruthy ∧
    (∀ v, v ∈ Nansen.keptLabels items ↔
      v ∈ Nansen.labelNames items ∧ jvalTruthy v = true) := by
  refine ⟨rfl, ?_, rfl, ?_⟩
  · rw [Nansen.smartFlag, List.any_eq_true]
    constructor
    · rintro ⟨v, hv, hsm⟩
      match v with
      | .str s => exact ⟨s, hv, by simpa [Nansen.isSmartLabel] using hsm⟩
    · rintro ⟨s, hs, hmem⟩
      exact ⟨.str s, hs, by simpa [Nansen.isSmartLabel] using hmem⟩
  · intro v
    simp [Nansen.keptLabels, List.mem_filter]

/-- Closed instance of `claim_C4` on a response holding one smart and one
non-smart label. -/
theorem claim_C4_witness :
    Nansen.isSmartMoneyNet
        (.reply 200 (.parsed (.obj [("data", .obj [("items",
          .arr [JVal.obj [("label", JVal.str "Fund")],
                JVal.obj [("label", JVal.str "Whale")]])])]))) =
      .ok (Nansen.smartFlag [JVal.obj [("label", JVal.str "Fund")],
            JVal.obj [("label", JVal.str "Whale")]])
        (Nansen.keptLabels [JVal.obj [("label", JVal.str "Fund")],
            JVal.obj [("label", JVal.str "Whale")]]) :=
  (claim_C4 [JVal.obj [("label", JVal.str "Fund")],
    JVal.obj [("label", JVal.str "Whale")]]).1

/-- C6 (code bug): the claim asks that every transport or parsing fault at
the labelling call site become a `NansenError`; the code does wrap transport
failures, non-200 statuses and a non-list `data.items`, but a 200 reply with
an unparseable body escapes as the raw JSON-decode `ValueError`
(`response.json()` is outside any try block), and a parsed non-dict body
escapes as an `AttributeError` from `.get`. -/
theorem claim_C6_eval :
    Nansen.isSmartMoneyNet (.reply 200 (.rawInvalid "<html>Bad Gateway</html>")) =
      .uncaughtValueError "<html>Bad Gateway</html>" ∧
    Nansen.isSmartMoneyNet (.reply 200 (.parsed (.arr []))) =
      .uncaughtAttributeError ∧
    Nansen.isSmartMoneyNet .transportError =
      .nansenError "Failed to call Nansen Profiler API" ∧
    Nansen.isSmartMoneyNet (.reply 503 (.rawInvalid "x")) =
      .nansenError ("Nansen returned status " ++ toString 503) ∧
    Nansen.isSmartMoneyNet
        (.reply 200 (.parsed (.obj [("data", .obj [("items", .str "nope")])]))) =
      .nansenError "Unexpected Nansen response format" :=
  ⟨rfl, rfl, rfl, rfl, rfl⟩

/-- `_first_existing` returns null exactly when every candidate key is
absent or null. -/
theorem firstExisting_eq_none_iff (d : Polymarket.RawItem) (ks : List String) :
    Polymarket.firstExisting d ks = none ↔ ∀ k ∈ ks, getNonNull d k = none := by
  induction ks with
  | nil => simp [Polymarket.firstExisting]
  | cons k ks ih =>
    match hk : getNonNull d k with
    | some v => simp [Polymarket.firstExisting, hk]
    | none => simp [Polymarket.firstExisting, hk, ih]

/-- `_first_existing` returns `v` exactly when some candidate key resolves to
`v` while every earlier candidate is absent or null. -/
theorem firstExisting_eq_some_iff (d : Polymarket.RawItem) (ks : List String) (v : JVal) :
    Polymarket.firstExisting d ks = some v ↔ Polymarket.firstCand d ks v := by
  induction ks with
  | nil =>
    simp only [Polymarket.firstExisting, Polymarket.firstCand]
    constructor
    · intro h; cases h
    · rintro ⟨ks1, k, ks2, hsplit, -, -⟩
      exact absurd hsplit (List.ne_nil_of_length_pos (by simp)).symm
  | cons k ks ih =>
    match hk : getNonNull d k with
    | some w =>
      simp only [Polymarket.firstExisting, hk]
      constructor
      · intro h
        exact ⟨[], k, ks, rfl, by simp, by rw [hk, h]⟩
      · rintro ⟨ks1, k', ks2, hsplit, hpre, hget⟩
        match ks1 with
        | [] =>
          obtain ⟨hk1, -⟩ := List.cons.inj hsplit
          rw [hk1] at hk; rw [hk] at hget; exact hget
        | k0 :: ks1 =>
          obtain ⟨hk0, -⟩ := List.cons.inj hsplit
          have := hpre k0 (by simp)
          rw [hk0] at hk
          rw [this] at hk
          cases hk
    | none =>
      simp only [Polymarket.firstExisting, hk, ih]
      constructor
      · rintro ⟨ks1, k', ks2, hsplit, hpre, hget⟩
        refine ⟨k :: ks1, k', ks2, by rw [hsplit]; rfl, ?_, hget⟩
        intro k'' hk''
        rcases List.mem_cons.mp hk'' with h | h
        · rw [h]; exact hk
        · exact hpre k'' h
      · rintro ⟨ks1, k', ks2, hsplit, hpre, hget⟩
        match ks1 with
        | [] =>
          obtain ⟨hk1, -⟩ := List.cons.inj hsplit
          rw [hk1] at hk; rw [hk] at hget; cases hget
        | k0 :: ks1 =>
          obtain ⟨-, hrest⟩ := List.cons.inj hsplit
          exact ⟨ks1, k', ks2, hrest, fun k'' h => hpre k'' (by simp [h]), hget⟩

/-- A field defined as `_first_existing d ks` satisfies the resolution
contract. -/
theorem firstExisting_resolves (d : Polymarket.RawItem) (ks : List String) :
    Polymarket.resolves (Polymarket.firstExisting d ks) d ks :=
  ⟨fun v => firstExisting_eq_some_iff d ks v, firstExisting_eq_none_iff d ks⟩

/-- C3: `_normalize_item` resolves maker, outcome, size, price (and, inside
a dict-valued market, id and question) to the first present non-null
candidate name, resolves match time from the queried time field with
fallback to the candidate time fields, leaves unresolved fields null without
error (the function is total by construction), yields `makerAddress = null`
when every recognized maker name is absent or null, and yields an empty
market sub-record when `market` is missing or not a dict. -/
theorem claim_C3 (tf : String) (it : Polymarket.RawItem) :
    Polymarket.resolves (Polymarket.normalizeItem tf it).makerAddress it
      Polymarket.CANDIDATE_MAKER_FIELDS ∧
    Polymarket.resolves (Polymarket.normalizeItem tf it).outcome it
      Polymarket.CANDIDATE_OUTCOME_FIELDS ∧
    Polymarket.resolves (Polymarket.normalizeItem tf it).size it
      Polymarket.CANDIDATE_SIZE_FIELDS ∧
    Polymarket.resolves (Polymarket.normalizeItem tf it).price it
      Polymarket.CANDIDATE_PRICE_FIELDS ∧
    (∀ v, getNonNull it tf = some v → (Polymarket.normalizeItem tf it).matchTime = some v) ∧
    (getNonNull it tf = none → (Polymarket.normalizeItem tf it).matchTime =
      Polymarket.firstExisting it Polymarket.CANDIDATE_TIME_FIELDS) ∧
    (∀ fs, getField it "market" = some (JVal.obj fs) →
      Polymarket.resolves (Polymarket.normalizeItem tf it).market.id fs
        Polymarket.CANDIDATE_MARKET_ID_FIELDS ∧
      Polymarket.resolves (Polymarket.normalizeItem tf it).market.question fs
        Polymarket.CANDIDATE_MARKET_QUESTION_FIELDS) ∧
    (getField it "market" = none → (Polymarket.normalizeItem tf it).market = ⟨none, none⟩) ∧
    (∀ v, getField it "market" = some v → isObjVal v = false →
      (Polymarket.normalizeItem tf it).market = ⟨none, none⟩) ∧
    ((∀ k ∈ Polymarket.CANDIDATE_MAKER_FIELDS, getNonNull it k = none) →
      (Polymarket.normalizeItem tf it).makerAddress = none) := by
  refine ⟨?_, ?_, ?_, ?_, ?_, ?_, ?_, ?_, ?_, ?_⟩
  · exact firstExisting_resolves it _
  · exact firstExisting_resolves it _
  · exact firstExisting_resolves it _
  · exact firstExisting_resolves it _
  · intro v hv; simp [Polymarket.normalizeItem, hv]
  · intro hv; simp [Polymarket.normalizeItem, hv]
  · intro fs hfs
    constructor
    · have : (Polymarket.normalizeItem tf it).market.id =
          Polymarket.firstExisting fs Polymarket.CANDIDATE_MARKET_ID_FIELDS := by
        simp [Polymarket.normalizeItem, hfs]
      rw [this]; exact firstExisting_resolves fs _
    · have : (Polymarket.normalizeItem tf it).market.question =
          Polymarket.firstExisting fs Polymarket.CANDIDATE_MARKET_QUESTION_FIELDS := by
        simp [Polymarket.normalizeItem, hfs]
      rw [this]; exact firstExisting_resolves fs _
  · intro hnone; simp [Polymarket.normalizeItem, hnone]
  · intro v hv hobj
    match v with
    | .null => simp [Polymarket.normalizeItem, hv]
    | .str s => simp [Polymarket.normalizeItem, hv]
    | .num n => simp [Polymarket.normalizeItem, hv]
    | .bool b => simp [Polymarket.normalizeItem, hv]
    | .arr l => simp [Polymarket.normalizeItem, hv]
    | .obj fs => exact absurd hobj (by simp [isObjVal])
  · intro hall
    exact (firstExisting_eq_none_iff it _).mpr hall

/-- Closed instance of `claim_C3`: an item with no recognized maker name and
a string-valued market normalizes (under time field `matchTime`) to a null
maker and an empty market sub-record, with no error. -/
theorem claim_C3_witness :
    (Polymarket.normalizeItem "matchTime" c3item).makerAddress = none ∧
    (Polymarket.normalizeItem "matchTime" c3item).market = ⟨none, none⟩ := by
  have h := claim_C3 "matchTime" c3item
  refine ⟨h.2.2.2.2.2.2.2.2.2 ?_, h.2.2.2.2.2.2.2.2.1 (JVal.str "oops") ?_ ?_⟩
  · intro k hk
    fin_cases hk <;> rfl
  · rfl
  · rfl

/-- If every pair in a leading segment is unsuccessful and the next pair
yields a nonempty list, the `query_trades` loop queries exactly that segment
plus the successful pair and returns the latter's normalized items. -/
theorem tryPairs_first_success (net : String → String → Polymarket.Resp)
    (c t : String) (items : List Polymarket.RawItem) (hne : items ≠ [])
    (hnet : net c t = .list items) :
    ∀ (pre rest : List (String × String)) (lastE : Option String),
      (∀ p ∈ pre, Polymarket.isSuccess (net p.1 p.2) = false) →
      Polymarket.tryPairs net (pre ++ (c, t) :: rest) lastE =
        (pre ++ [(c, t)], .ok (items.map (Polymarket.normalizeItem t))) := by
  intro pre
  induction pre with
  | nil =>
    intro rest lastE _
    match items, hne with
    | it :: its, _ =>
      simp [Polymarket.tryPairs, hnet]
  | cons p pre ih =>
    intro rest lastE hpre
    obtain ⟨c', t'⟩ := p
    have hfail := hpre (c', t') (by simp)
    have hrest : ∀ q ∈ pre, Polymarket.isSuccess (net q.1 q.2) = false := by
      intro q hq; exact hpre q (by simp [hq])
    match hp : net c' t' with
    | .fail msg =>
      simp [Polymarket.tryPairs, hp, ih _ _ hrest]
    | .nonList desc =>
      simp [Polymarket.tryPairs, hp, ih _ _ hrest]
    | .list [] =>
      simp [Polymarket.tryPairs, hp, ih _ _ hrest]
    | .list (x :: xs) =>
      rw [hp] at hfail
      simp [Polymarket.isSuccess] at hfail

/-- C1: `query_trades` tries the `(collection, timeField)` candidates in the
fixed priority order of `allPairs` (collections outer, time fields inner);
whenever a pair is the first to yield a nonempty list, the function queries
exactly the pairs up to and including it — a prefix of `allPairs`, so no
later pair is queried — and returns that pair's items normalized with its
time field. -/
theorem claim_C1 (net : String → String → Polymarket.Resp)
    (pre post : List (String × String)) (c t : String)
    (items : List Polymarket.RawItem)
    (hsplit : Polymarket.allPairs = pre ++ (c, t) :: post)
    (hpre : ∀ p ∈ pre, Polymarket.isSuccess (net p.1 p.2) = false)
    (hnet : net c t = .list items) (hne : items ≠ []) :
    Polymarket.queryTrades net =
      (pre ++ [(c, t)], .ok (items.map (Polymarket.normalizeItem t))) ∧
    pre ++ [(c, t)] = Polymarket.allPairs.take (pre.length + 1) := by
  constructor
  · rw [Polymarket.queryTrades, hsplit]
    exact tryPairs_first_success net c t items hne hnet pre post none hpre
  · rw [hsplit, List.take_append_eq_append_take,
      List.take_of_length_le (by omega)]
    have h1 : pre.length + 1 - pre.length = 1 := by omega
    rw [h1]
    simp

/-- Closed instance of `claim_C1`: the first pair `(fills, matchTime)` fails
with a transport error, the second pair `(fills, timestamp)` returns one
item; exactly those two pairs are queried and the item is returned
normalized. -/
theorem claim_C1_witness :
    Polymarket.queryTrades c1net =
      ([("fills", "matchTime"), ("fills", "timestamp")],
        .ok ([c1item].map (Polymarket.normalizeItem "timestamp"))) ∧
    [("fills", "matchTime"), ("fills", "timestamp")] =
      Polymarket.allPairs.take ([("fills", "matchTime")].length + 1) :=
  claim_C1 c1net [("fills", "matchTime")] (Polymarket.allPairs.drop 2)
    "fills" "timestamp" [c1item]
    (by decide)
    (by
      intro p hp
      have : p = ("fills", "matchTime") := by
        simpa using hp
      rw [this]; rfl)
    rfl (by simp)

/-- If every pair of `segment ++ [(c, t)]` is unsuccessful, the
`query_trades` loop queries all of them and fails with the terminal message
built from the diagnostic of the final pair `(c, t)` — the most recently
recorded transport, schema, malformed-response, or valid-but-empty
diagnostic. -/
theorem tryPairs_all_fail (net : String → String → Polymarket.Resp) :
    ∀ (ks : List (String × String)) (c t : String) (lastE : Option String),
      (∀ p ∈ ks ++ [(c, t)], Polymarket.isSuccess (net p.1 p.2) = false) →
      Polymarket.tryPairs net (ks ++ [(c, t)]) lastE =
        (ks ++ [(c, t)],
          .error (Polymarket.exhaustMsg (some (Polymarket.diag c t (net c t))))) := by
  intro ks
  induction ks with
  | nil =>
    intro c t lastE hall
    have hfail := hall (c, t) (by simp)
    match hp : net c t with
    | .fail msg =>
      simp [Polymarket.tryPairs, hp]
    | .nonList desc =>
      simp [Polymarket.tryPairs, hp]
    | .list [] =>
      simp [Polymarket.tryPairs, hp]
    | .list (x :: xs) =>
      rw [hp] at hfail
      simp [Polymarket.isSuccess] at hfail
  | cons p ks ih =>
    intro c t lastE hall
    obtain ⟨c', t'⟩ := p
    have hfail := hall (c', t') (by simp)
    have hrest : ∀ q ∈ ks ++ [(c, t)], Polymarket.isSuccess (net q.1 q.2) = false := by
      intro q hq; exact hall q (by simp at hq ⊢; tauto)
    match hp : net c' t' with
    | .fail msg =>
      simp [Polymarket.tryPairs, hp, ih _ _ _ hrest]
    | .nonList desc =>
      simp [Polymarket.tryPairs, hp, ih _ _ _ hrest]
    | .list [] =>
      simp [Polymarket.tryPairs, hp, ih _ _ _ hrest]
    | .list (x :: xs) =>
      rw [hp] at hfail
      simp [Polymarket.isSuccess] at hfail

/-- C2: when every candidate pair is exhausted without a nonempty list,
`query_trades` does not return a value but raises a `PolymarketError` whose
message contains (between the fixed head and tail text) the last recorded
diagnostic, which is the one of the final pair `(marketTrades, filledAt)`. -/
theorem claim_C2 (net : String → String → Polymarket.Resp)
    (hall : ∀ p ∈ Polymarket.allPairs, Polymarket.isSuccess (net p.1 p.2) = false) :
    Polymarket.queryTrades net =
      (Polymarket.allPairs,
        .error (Polymarket.exhaustHead ++
          Polymarket.diag "marketTrades" "filledAt" (net "marketTrades" "filledAt") ++
          Polymarket.exhaustTail)) := by
  have hsplit : Polymarket.allPairs =
      Polymarket.allPairs.dropLast ++ [("marketTrades", "filledAt")] := by decide
  rw [Polymarket.queryTrades, hsplit]
  rw [tryPairs_all_fail net _ _ _ none (by rw [← hsplit]; exact hall)]
  rfl

/-- Closed instance of `claim_C2`: a network on which every attempt raises
the same transport error; the terminal message carries that (last) error. -/
theorem claim_C2_witness :
    Polymarket.queryTrades (fun _ _ => Polymarket.Resp.fail "boom") =
      (Polymarket.allPairs,
        .error (Polymarket.exhaustHead ++
          Polymarket.diag "marketTrades" "filledAt" (Polymarket.Resp.fail "boom") ++
          Polymarket.exhaustTail)) :=
  claim_C2 (fun _ _ => Polymarket.Resp.fail "boom") (fun _ _ => rfl)

/-- Cache lookup misses exactly when no entry carries the key. -/
theorem lruLookup_eq_none_iff {κ α : Type} [DecidableEq κ]
    (c : List (κ × α)) (k : κ) :
    Lru.lruLookup c k = none ↔ ∀ p ∈ c, p.1 ≠ k := by
  induction c with
  | nil => simp [Lru.lruLookup]
  | cons p rest ih =>
    obtain ⟨k', v⟩ := p
    by_cases h : k' = k
    · simp [Lru.lruLookup, h]
    · simp [Lru.lruLookup, h, ih]

/-- A key found at the very end of the recency list (behind entries that all
carry other keys) is still found. -/
theorem lruLookup_append_last {κ α : Type} [DecidableEq κ]
    (a : List (κ × α)) (k : κ) (v : α) (h : ∀ p ∈ a, p.1 ≠ k) :
    Lru.lruLookup (a ++ [(k, v)]) k = some v := by
  induction a with
  | nil => simp [Lru.lruLookup]
  | cons p rest ih =>
    obtain ⟨k', w⟩ := p
    have hne : k' ≠ k := h (k', w) (by simp)
    rw [List.cons_append, Lru.lruLookup, if_neg hne]
    exact ih fun q hq => h q (by simp [hq])

/-- Truncating the cache cannot create a hit. -/
theorem lruLookup_take_eq_none {κ α : Type} [DecidableEq κ]
    (c : List (κ × α)) (k : κ) (m : Nat) (h : Lru.lruLookup c k = none) :
    Lru.lruLookup (c.take m) k = none := by
  rw [lruLookup_eq_none_iff] at h ⊢
  intro p hp
  exact h p (List.take_subset m c hp)

/-- Running a concatenated call sequence runs the two halves in order,
threading the cache. -/
theorem lruRun_append {κ α : Type} [DecidableEq κ] (m : Nat) (net : κ → α)
    (ks1 ks2 : List κ) (c : List (κ × α)) :
    Lru.lruRun m net (ks1 ++ ks2) c =
      ((Lru.lruRun m net ks1 c).1 ++
          (Lru.lruRun m net ks2 (Lru.lruRun m net ks1 c).2).1,
        (Lru.lruRun m net ks2 (Lru.lruRun m net ks1 c).2).2) := by
  induction ks1 generalizing c with
  | nil => simp [Lru.lruRun]
  | cons k ks ih => simp [Lru.lruRun, ih]

/-- Truncation to the capacity can be postponed past newer entries. -/
theorem take_append_take {β : Type} (a l : List β) (m : Nat) :
    (a ++ l.take m).take m = (a ++ l).take m := by
  rw [List.take_append_eq_append_take, List.take_append_eq_append_take,
    List.take_take, Nat.min_eq_left (by omega)]

/-- Running pairwise-distinct keys that all miss the starting cache performs
one underlying call per key and leaves their entries, newest first, in front
of the starting cache, truncated to the capacity. -/
theorem lruRun_fresh {κ α : Type} [DecidableEq κ] (m : Nat) (net : κ → α) :
    ∀ (ks : List κ) (c : List (κ × α)), ks.Nodup → c.length ≤ m →
      (∀ x ∈ ks, Lru.lruLookup c x = none) →
      Lru.lruRun m net ks c =
        (ks.map fun x => (net x, true),
          ((ks.map fun x => (x, net x)).reverse ++ c).take m) := by
  intro ks
  induction ks with
  | nil =>
    intro c _ hlen _
    simp [Lru.lruRun, List.take_of_length_le hlen]
  | cons k ks ih =>
    intro c hnd hlen hfresh
    have hk : Lru.lruLookup c k = none := hfresh k (by simp)
    have hknotin : k ∉ ks := (List.nodup_cons.mp hnd).1
    have hfresh' : ∀ x ∈ ks, Lru.lruLookup (((k, net k) :: c).take m) x = none := by
      intro x hx
      apply lruLookup_take_eq_none
      have hxk : k ≠ x := fun hcontr => hknotin (hcontr ▸ hx)
      rw [Lru.lruLookup, if_neg hxk]
      exact hfresh x (by simp [hx])
    have hlen' : (((k, net k) :: c).take m).length ≤ m := by
      simp [List.length_take]
    have hrec := ih (((k, net k) :: c).take m) (List.nodup_cons.mp hnd).2 hlen' hfresh'
    simp only [Lru.lruRun, Lru.lruCall, hk]
    rw [hrec]
    refine congrArg₂ Prod.mk rfl ?_
    rw [take_append_take]
    simp [List.append_assoc]

/-- Generic second-call hit: when at most `capacity - 1` distinct fresh keys
are interposed between two calls with the same key, the second call is
answered from the cache (no underlying call) with the first call's value. -/
theorem lruRun_second_hit {κ α : Type} [DecidableEq κ] (m : Nat) (net : κ → α)
    (k : κ) (mids : List κ) (h1 : k ∉ mids) (h2 : mids.Nodup)
    (h3 : mids.length < m) :
    (Lru.lruRun m net (k :: mids ++ [k]) []).1.head? = some (net k, true) ∧
    (Lru.lruRun m net (k :: mids ++ [k]) []).1.getLast? = some (net k, false) := by
  have hmiss : Lru.lruLookup ([] : List (κ × α)) k = none := rfl
  have hc1 : ((k, net k) :: ([] : List (κ × α))).take m = [(k, net k)] :=
    List.take_of_length_le (by simp; omega)
  have hfresh : ∀ x ∈ mids, Lru.lruLookup [(k, net k)] x = none := by
    intro x hx
    have hxk : k ≠ x := fun hcontr => h1 (hcontr ▸ hx)
    rw [Lru.lruLookup, if_neg hxk]
    rfl
  have hmidsrun := lruRun_fresh m net mids [(k, net k)] h2 (by simp; omega) hfresh
  have hcache2 : (((mids.map fun x => (x, net x)).reverse ++ [(k, net k)]).take m) =
      (mids.map fun x => (x, net x)).reverse ++ [(k, net k)] :=
    List.take_of_length_le (by simp; omega)
  have hkeys : ∀ p ∈ (mids.map fun x => (x, net x)).reverse, p.1 ≠ k := by
    intro p hp
    rw [List.mem_reverse, List.mem_map] at hp
    obtain ⟨x, hx, rfl⟩ := hp
    exact fun hcontr => h1 (hcontr ▸ hx)
  have hhit : Lru.lruLookup
      ((mids.map fun x => (x, net x)).reverse ++ [(k, net k)]) k = some (net k) :=
    lruLookup_append_last _ k (net k) hkeys
  have hrun : Lru.lruRun m net (k :: mids ++ [k]) [] =
      ((net k, true) :: ((mids.map fun x => (net x, true)) ++ [(net k, false)]),
        (Lru.lruRun m net (k :: mids ++ [k]) []).2) := by
    rw [show (k :: mids ++ [k] : List κ) = k :: (mids ++ [k]) from rfl]
    simp only [Lru.lruRun, Lru.lruCall, hmiss]
    rw [hc1, lruRun_append, hmidsrun, hcache2]
    simp only [Lru.lruRun, Lru.lruCall, hhit]
  constructor
  · rw [hrun]; rfl
  · rw [hrun]
    simp only [← List.cons_append]
    exact List.getLast?_concat _

/-- Generic eviction: when at least `capacity` distinct fresh keys are
interposed between two calls with the same key, the first call's entry has
been evicted and the second call invokes the underlying function again. -/
theorem lruRun_evicted {κ α : Type} [DecidableEq κ] (m : Nat) (net : κ → α)
    (k : κ) (mids : List κ) (h1 : k ∉ mids) (h2 : mids.Nodup)
    (h3 : m ≤ mids.length) :
    (Lru.lruRun m net (k :: mids ++ [k]) []).1.getLast? = some (net k, true) := by
  have hmiss : Lru.lruLookup ([] : List (κ × α)) k = none := rfl
  have hfresh : ∀ x ∈ mids, Lru.lruLookup (((k, net k) :: []).take m) x = none := by
    intro x hx
    apply lruLookup_take_eq_none
    have hxk : k ≠ x := fun hcontr => h1 (hcontr ▸ hx)
    rw [Lru.lruLookup, if_neg hxk]
    rfl
  have hmidsrun := lruRun_fresh m net mids (((k, net k) :: []).take m) h2
    (by simp [List.length_take]) hfresh
  have hcache2 : (((mids.map fun x => (x, net x)).reverse ++
        ((k, net k) :: []).take m).take m) =
      ((mids.map fun x => (x, net x)).reverse).take m := by
    rw [take_append_take]
    exact List.take_append_of_le_length (by simp; omega)
  have hkeys : ∀ p ∈ ((mids.map fun x => (x, net x)).reverse).take m, p.1 ≠ k := by
    intro p hp
    have hp' := List.take_subset m _ hp
    rw [List.mem_reverse, List.mem_map] at hp'
    obtain ⟨x, hx, rfl⟩ := hp'
    exact fun hcontr => h1 (hcontr ▸ hx)
  have hmiss2 : Lru.lruLookup
      (((mids.map fun x => (x, net x)).reverse).take m) k = none :=
    (lruLookup_eq_none_iff _ k).mpr hkeys
  have hrun : (Lru.lruRun m net (k :: mids ++ [k]) []).1 =
      (net k, true) :: ((mids.map fun x => (net x, true)) ++ [(net k, true)]) := by
    rw [show (k :: mids ++ [k] : List κ) = k :: (mids ++ [k]) from rfl]
    simp only [Lru.lruRun, Lru.lruCall, hmiss]
    rw [lruRun_append, hmidsrun]
    rw [hcache2]
    simp only [Lru.lruRun, Lru.lruCall, hmiss2]
  rw [hrun]
  simp only [← List.cons_append]
  exact List.getLast?_concat _

/-- C5 as amended: classification results are memoized by `(address, chain)`
in an LRU cache of capacity 512 (not indefinitely); a second classify call
with the same key performs no network call and returns the memoized result
provided fewer than 512 distinct other keys were classified in between,
while the first call did hit the network. -/
theorem claim_C5 (net : Nansen.NKey → Bool × List JVal) (k : Nansen.NKey)
    (mids : List Nansen.NKey) (h1 : k ∉ mids) (h2 : mids.Nodup)
    (h3 : mids.length < 512) :
    (Nansen.classifyRuns net (k :: mids ++ [k])).1.head? = some (net k, true) ∧
    (Nansen.classifyRuns net (k :: mids ++ [k])).1.getLast? = some (net k, false) :=
  lruRun_second_hit 512 net k mids h1 h2 h3

/-- Closed instance of `claim_C5`: classifying one other address in between
leaves the second call to the same address a silent cache hit. -/
theorem claim_C5_witness :
    (Nansen.classifyRuns c5net (("0xabc", "polygon") :: [("0xdef", "polygon")] ++
        [("0xabc", "polygon")])).1.head? = some (c5net ("0xabc", "polygon"), true) ∧
    (Nansen.classifyRuns c5net (("0xabc", "polygon") :: [("0xdef", "polygon")] ++
        [("0xabc", "polygon")])).1.getLast? = some (c5net ("0xabc", "polygon"), false) :=
  claim_C5 c5net ("0xabc", "polygon") [("0xdef", "polygon")]
    (by decide) (by decide) (by decide)

/-- Counterexample to C5 as stated: with 512 distinct addresses classified
in between, the entry for the first address is evicted from the
`lru_cache(maxsize=512)` and the second call with the same `(address,
chain)` key hits the network again — the cache is not append-only and
memoization is not for the whole process lifetime regardless of how many
distinct addresses were classified in between. -/
theorem claim_C5_counterexample :
    (Nansen.classifyRuns c5net (c5key :: c5mids ++ [c5key])).1.getLast? =
      some (c5net c5key, true) := by
  have hinj : Function.Injective
      (fun i : Nat => ((String.mk (List.replicate i 'a'), "polygon") : Nansen.NKey)) := by
    intro i j h
    have hdata : List.replicate i 'a' = List.replicate j 'a' :=
      congrArg (fun p : Nansen.NKey => p.1.data) h
    have := congrArg List.length hdata
    simpa using this
  have h2 : c5mids.Nodup := (List.nodup_range 512).map hinj
  have h1 : c5key ∉ c5mids := by
    intro hmem
    rw [c5mids, List.mem_map] at hmem
    obtain ⟨i, hi, heq⟩ := hmem
    have hdata : List.replicate i 'a' = List.replicate 512 'a' :=
      congrArg (fun p : Nansen.NKey => p.1.data) heq
    have hlen := congrArg List.length hdata
    rw [List.length_replicate, List.length_replicate] at hlen
    rw [List.mem_range] at hi
    omega
  have h3 : 512 ≤ c5mids.length := by simp [c5mids]
  exact lruRun_evicted 512 c5net c5key c5mids h1 h2 h3

end PolymarketBot
